import Mathlib

/-!
Verification of the client-care-letter generator (`streamlit_app.py`).

The Python source is shallowly embedded: each Python helper becomes a Lean
function over `String` / `List Char`, and the module-level render loop's
per-element logic becomes explicit state-passing functions.  Python's
`str.replace`, `str.split`, `str.splitlines`, `str.strip`, `str.lstrip`
are modelled by executable Lean counterparts with the same semantics on
the inputs that occur here (newline-separated ASCII-ish text).
-/

set_option maxRecDepth 100000

namespace StreamlitApp

/-- Whitespace characters stripped by Python `str.strip` (ASCII subset). -/
def pyIsSpace (c : Char) : Bool :=
  c = ' ' || c = '\t' || c = '\n' || c = '\r' || c = '\x0b' || c = '\x0c'

/-- Python `str.lstrip()` on a char list. -/
def pyLstripL (s : List Char) : List Char := s.dropWhile pyIsSpace

/-- Python `str.strip()` on a char list. -/
def pyStripL (s : List Char) : List Char :=
  ((s.dropWhile pyIsSpace).reverse.dropWhile pyIsSpace).reverse

/-- Python `str.lstrip()`. -/
def pyLstrip (s : String) : String := ⟨pyLstripL s.toList⟩

/-- Python `str.strip()`. -/
def pyStrip (s : String) : String := ⟨pyStripL s.toList⟩

/-- `occursL p s` holds when pattern `p` occurs as a contiguous sublist of `s`
(Python `p in s`). -/
def occursL (p : List Char) : List Char → Bool
  | [] => p.isPrefixOf []
  | c :: rest => p.isPrefixOf (c :: rest) || occursL p rest

/-- String wrapper for `occursL`. -/
def occursS (p s : String) : Bool := occursL p.toList s.toList

/-- Worker for Python `str.replace`: a single left-to-right pass replacing
each non-overlapping occurrence of `p` by `v`.  When `skip > 0` the scanner
is inside the tail of a just-matched pattern occurrence and consumes chars
without rescanning them (so inserted/matched text is never re-scanned). -/
def replaceGo (p v : List Char) : Nat → List Char → List Char
  | _, [] => []
  | skip + 1, _ :: rest => replaceGo p v skip rest
  | 0, c :: rest =>
    if !p.isEmpty && p.isPrefixOf (c :: rest) then
      v ++ replaceGo p v (p.length - 1) rest
    else
      c :: replaceGo p v 0 rest

/-- Python `str.replace` on char lists (single pass, non-recursive). -/
def replaceL (p v s : List Char) : List Char := replaceGo p v 0 s

/-- Python `str.replace` on `String`s (patterns used are always nonempty). -/
def pyReplace (s p v : String) : String :=
  if p.isEmpty then s else ⟨replaceL p.toList v.toList s.toList⟩

/-- Python `str.splitlines()` restricted to `'\n'` separators: every
newline-terminated segment is kept; a trailing unterminated segment is kept
only if nonempty. -/
def pySplitlinesL (buf : List Char) : List Char → List String
  | [] => if buf.isEmpty then [] else [⟨buf.reverse⟩]
  | '\n' :: rest => (⟨buf.reverse⟩ : String) :: pySplitlinesL [] rest
  | c :: rest => pySplitlinesL (c :: buf) rest

/-- Python `str.splitlines()`. -/
def pySplitlines (s : String) : List String := pySplitlinesL [] s.toList

/-- Python `str.split('\n')` worker: unlike `splitlines`, the final segment
is always kept, so `"".split('\n') == [""]`. -/
def pySplitNLGo (buf : List Char) : List Char → List String
  | [] => [⟨buf.reverse⟩]
  | '\n' :: rest => (⟨buf.reverse⟩ : String) :: pySplitNLGo [] rest
  | c :: rest => pySplitNLGo (c :: buf) rest

/-- Python `str.split('\n')`. -/
def pySplitNL (s : String) : List String := pySplitNLGo [] s.toList

/-- Python `"\n".join`. -/
def joinNL (ls : List String) : String := String.intercalate "\n" ls

/-- The `app_inputs` dictionary.  Fields read with `app_inputs.get(k, d)` in
the source are `Option String` (absent key = `none`); fields read with
`app_inputs[k]` are plain (the app always sets them). -/
structure AppInputs where
  client_type : String
  claim_assigned : Bool
  selected_track : String
  qu1_dispute_nature : Option String
  qu2_initial_steps : Option String
  qu3_timescales : Option String
  qu4_initial_costs_estimate : Option String
  our_ref : Option String
  your_ref : Option String
  letter_date : Option String
  client_name_input : Option String
  client_address_line1 : Option String
  client_address_line2_conditional : Option String
  client_postcode : Option String
  name : Option String
  firm_details : List (String × String)
deriving Repr

/-- A default context: Individual client, unassigned Small Claims, all
optional keys absent, no firm details. -/
def defInputs : AppInputs :=
  { client_type := "Individual"
    claim_assigned := false
    selected_track := "Small Claims Track"
    qu1_dispute_nature := none
    qu2_initial_steps := none
    qu3_timescales := none
    qu4_initial_costs_estimate := none
    our_ref := none
    your_ref := none
    letter_date := none
    client_name_input := none
    client_address_line1 := none
    client_address_line2_conditional := none
    client_postcode := none
    name := none
    firm_details := [] }

/-- The literal replacement pattern of line 13 of the source. -/
def qu1Pattern : String :=
  "[qu 1 set out the nature of the dispute - start and end lower case]"

/-- The literal replacement pattern of line 14 of the source. -/
def qu2Pattern : String :=
  "[qu 2 set out the immediate steps that will be taken (this maybe a review of the facts and papers to allow you to advise in writing or making initial court applications or taking the first step, prosecuting or defending in a mainstream action). If you have agreed to engage counsel or other third party to assist you should also say so here – start and end lower case]"

/-- The literal replacement pattern of line 15 of the source. -/
def qu3PatternA : String :=
  "[qu3 Explain the estimated time scales to complete the Work. Start capital and end full stop]"

/-- The literal replacement pattern of line 16 of the source. -/
def qu3PatternB : String :=
  "qu3 Explain the estimated time scales to complete the initial and any ongoing Work. CAPITAL Start capital and end full stop \".\""

/-- The literal replacement pattern of line 17 of the source. -/
def qu4Pattern : String :=
  "£ [qu4_ what is the value of the estimated initial costs xx,xxx?]"

/-- The centralized placeholder replacement of `add_runs_from_text`
(source lines 13-29): a fixed sequence of `str.replace` passes, one per key,
in source order, followed by one pass per `firm_details` entry. -/
def substitutePlaceholders (text : String) (a : AppInputs) : String :=
  let t := pyReplace text qu1Pattern (a.qu1_dispute_nature.getD "")
  let t := pyReplace t qu2Pattern (a.qu2_initial_steps.getD "")
  let t := pyReplace t qu3PatternA (a.qu3_timescales.getD "")
  let t := pyReplace t qu3PatternB (a.qu3_timescales.getD "")
  let t := pyReplace t qu4Pattern ("£" ++ a.qu4_initial_costs_estimate.getD "XX,XXX")
  let t := pyReplace t "{our_ref}" (a.our_ref.getD "")
  let t := pyReplace t "{your_ref}" (a.your_ref.getD "")
  let t := pyReplace t "{letter_date}" (a.letter_date.getD "")
  let t := pyReplace t "{client_name_input}" (a.client_name_input.getD "")
  let t := pyReplace t "{client_address_line1}" (a.client_address_line1.getD "")
  let t := pyReplace t "{client_address_line2_conditional}" (a.client_address_line2_conditional.getD "")
  let t := pyReplace t "{client_postcode}" (a.client_postcode.getD "")
  let t := pyReplace t "{name}" (a.name.getD "")
  a.firm_details.foldl (fun acc kv => pyReplace acc ("\x7b" ++ kv.1 ++ "\x7d") kv.2) t

/-- Every replacement pattern used by `substitutePlaceholders` on context `a`,
in application order. -/
def substPatterns (a : AppInputs) : List String :=
  [qu1Pattern, qu2Pattern, qu3PatternA, qu3PatternB, qu4Pattern,
   "{our_ref}", "{your_ref}", "{letter_date}", "{client_name_input}",
   "{client_address_line1}", "{client_address_line2_conditional}",
   "{client_postcode}", "{name}"] ++
  a.firm_details.map (fun kv => "\x7b" ++ kv.1 ++ "\x7d")

/-- `should_render_paragraph_version` (source lines 53-75), deciding whether
an optional paragraph version renders under the given inputs. -/
def shouldRenderParagraphVersion (pNum : String) (pVersion : Option String)
    (a : AppInputs) : Bool :=
  match pVersion with
  | none => true
  | some v =>
    if v.isEmpty then true
    else if pNum = "6" then
      let isIndivVersion := v = "1"
      (a.client_type = "Individual" && isIndivVersion) ||
        (a.client_type = "Corporate" && !isIndivVersion)
    else if pNum = "18" then
      let isIndivVersion := v = "1"
      (a.client_type = "Individual" && isIndivVersion) ||
        (a.client_type = "Corporate" && !isIndivVersion)
    else if pNum = "24" then
      let isAllocated := a.claim_assigned
      let track := a.selected_track
      if v = "1" then isAllocated && track = "Small Claims Track"
      else if v = "2" then isAllocated && track = "Fast Track"
      else if v = "3" then isAllocated && track = "Intermediate Track"
      else if v = "4" then isAllocated && track = "Multi Track"
      else if v = "5" then !isAllocated && track = "Small Claims Track"
      else if v = "6" then !isAllocated && track = "Fast Track"
      else if v = "7" then !isAllocated && track = "Intermediate Track"
      else if v = "8" then !isAllocated && track = "Multi Track"
      else false
    else true

/-- `re.split` on the delimiter alternation of source line 31: returns the
alternating literal/delimiter parts, keeping empty literals, exactly as
Python's `re.split` with a capturing group does.  The seven delimiters are
matched structurally; alternation order is irrelevant here because no
delimiter is a prefix of another's occurrence at the same position. -/
def splitFmtGo (buf : List Char) : List Char → List String
  | '[' :: 'b' :: 'o' :: 'l' :: 'd' :: ']' :: rest =>
    (⟨buf.reverse⟩ : String) :: "[bold]" :: splitFmtGo [] rest
  | '[' :: 'e' :: 'n' :: 'd' :: ' ' :: 'b' :: 'o' :: 'l' :: 'd' :: ']' :: rest =>
    (⟨buf.reverse⟩ : String) :: "[end bold]" :: splitFmtGo [] rest
  | '[' :: 'i' :: 't' :: 'a' :: 'l' :: 'i' :: 'c' :: 's' :: ']' :: rest =>
    (⟨buf.reverse⟩ : String) :: "[italics]" :: splitFmtGo [] rest
  | '[' :: 'e' :: 'n' :: 'd' :: ' ' :: 'i' :: 't' :: 'a' :: 'l' :: 'i' :: 'c' :: 's' :: ']' :: rest =>
    (⟨buf.reverse⟩ : String) :: "[end italics]" :: splitFmtGo [] rest
  | '[' :: 'u' :: 'n' :: 'd' :: 'e' :: 'r' :: 'l' :: 'i' :: 'n' :: 'e' :: ']' :: rest =>
    (⟨buf.reverse⟩ : String) :: "[underline]" :: splitFmtGo [] rest
  | '[' :: 'e' :: 'n' :: 'd' :: ' ' :: 'u' :: 'n' :: 'd' :: 'e' :: 'r' :: 'l' :: 'i' :: 'n' :: 'e' :: ']' :: rest =>
    (⟨buf.reverse⟩ : String) :: "[end underline]" :: splitFmtGo [] rest
  | '[' :: 'e' :: 'n' :: 'd' :: ']' :: rest =>
    (⟨buf.reverse⟩ : String) :: "[end]" :: splitFmtGo [] rest
  | c :: rest => splitFmtGo (c :: buf) rest
  | [] => [⟨buf.reverse⟩]

/-- Split a line on the inline-formatting delimiters (source line 31). -/
def splitFmt (s : String) : List String := splitFmtGo [] s.toList

/-- The three inline-formatting toggles of `add_runs_from_text`. -/
@[ext]
structure FmtState where
  is_bold : Bool
  is_italic : Bool
  is_underline : Bool
deriving Repr, DecidableEq

/-- All toggles off, the state at the start of each fragment. -/
def fmtInit : FmtState := ⟨false, false, false⟩

/-- The per-part state transition of the loop at source lines 35-43 (the
`elif` chain; text parts and empty parts leave the state unchanged). -/
def fmtStep (st : FmtState) (part : String) : FmtState :=
  if part.isEmpty then st
  else if part = "[bold]" then { st with is_bold := true }
  else if part = "[end bold]" || (part = "[end]" && st.is_bold) then
    { st with is_bold := false }
  else if part = "[italics]" then { st with is_italic := true }
  else if part = "[end italics]" || (part = "[end]" && st.is_italic) then
    { st with is_italic := false }
  else if part = "[underline]" then { st with is_underline := true }
  else if part = "[end underline]" || (part = "[end]" && st.is_underline) then
    { st with is_underline := false }
  else if part = "[end]" then ⟨false, false, false⟩
  else st

/-- One styled run emitted by `add_runs_from_text` (source lines 44-50). -/
structure Run where
  text : String
  bold : Bool
  italic : Bool
  underline : Bool
deriving Repr, DecidableEq

/-- Whether a part is one of the seven formatting delimiters. -/
def isFmtDelim (part : String) : Bool :=
  part = "[bold]" || part = "[end bold]" || part = "[italics]" ||
    part = "[end italics]" || part = "[underline]" || part = "[end underline]" ||
    part = "[end]"

/-- The run-emission loop of `add_runs_from_text` (source lines 32-50):
empty parts are skipped, delimiter parts update the toggles, text parts are
emitted as runs carrying the current toggle state. -/
def fmtRuns (st : FmtState) : List String → List Run
  | [] => []
  | part :: rest =>
    if part.isEmpty then fmtRuns st rest
    else if isFmtDelim part then fmtRuns (fmtStep st part) rest
    else ⟨part, st.is_bold, st.is_italic, st.is_underline⟩ :: fmtRuns st rest

/-- The inline-formatting tokenizer applied to a (post-substitution) line. -/
def inlineRuns (line : String) : List Run := fmtRuns fmtInit (splitFmt line)

/-- Full `add_runs_from_text`: placeholder substitution (lines 13-29), then
the formatting split and run emission (lines 31-50). -/
def addRunsFromText (line : String) (a : AppInputs) : List Run :=
  inlineRuns (substitutePlaceholders line a)

/-- Maximal leading digit run (the greedy `\d+` of the tag regexes). -/
def spanDigits : List Char → List Char × List Char
  | [] => ([], [])
  | c :: rest =>
    if c.isDigit then
      let (ds, r) := spanDigits rest
      (c :: ds, r)
    else ([], c :: rest)

/-- Match the paragraph start-tag regex `\[(\d+)((?:-(\d+))?)\]` at the head
of `cs`; returns `(matched length, group 1, group 3 when group 2 matched)`. -/
def matchStartAt : List Char → Option (Nat × String × Option String)
  | '[' :: rest =>
    let (ds, r) := spanDigits rest
    if ds.isEmpty then none
    else
      match r with
      | ']' :: _ => some (ds.length + 2, ⟨ds⟩, none)
      | '-' :: r2 =>
        let (es, r3) := spanDigits r2
        if es.isEmpty then none
        else
          match r3 with
          | ']' :: _ => some (ds.length + es.length + 3, ⟨ds⟩, some ⟨es⟩)
          | _ => none
      | _ => none
  | _ => none

/-- Match the paragraph end-tag regex `\[/(\d+)((?:-(\d+))?)\]` at the head
of `cs`. -/
def matchEndAt : List Char → Option (Nat × String × Option String)
  | '[' :: '/' :: rest =>
    match matchStartAt ('[' :: rest) with
    | some (len, n, v) => some (len + 1, n, v)
    | none => none
  | _ => none

/-- `re.search`: leftmost match of `matcher` in `cs`, with absolute start and
end offsets (offset of the scan head is `i`). -/
def findTagGo (matcher : List Char → Option (Nat × String × Option String)) :
    Nat → List Char → Option (Nat × Nat × String × Option String)
  | i, [] =>
    match matcher [] with
    | some (len, n, v) => some (i, i + len, n, v)
    | none => none
  | i, c :: rest =>
    match matcher (c :: rest) with
    | some (len, n, v) => some (i, i + len, n, v)
    | none => findTagGo matcher (i + 1) rest

/-- `current_paragraph_builder` (source lines 125-131). -/
structure Builder where
  num : String
  version : Option String
  lines : List String
  selected : Bool
deriving Repr, DecidableEq

/-- A logical element emitted by `preprocess_precedent`. -/
inductive LElem where
  | raw_line (content : String)
  | paragraph_block (displayNum : String) (content : String)
deriving Repr, DecidableEq

/-- The paragraph block appended when a builder is closed or flushed
(content is `"\n".join(lines)`, display number is `num + "."`). -/
def mkBlock (b : Builder) : LElem :=
  LElem.paragraph_block (b.num ++ ".") (joinNL b.lines)

/-- The inner `while line_to_process:` loop of `preprocess_precedent`
(source lines 88-137), processing one line.  `fuel` only bounds iteration
count; every iteration consumes at least one char, so `length + 1` fuel is
never exhausted. -/
def processCharsF (a : AppInputs) :
    Nat → List LElem × Option Builder → List Char → List LElem × Option Builder
  | _, st, [] => st
  | 0, st, _ => st
  | fuel + 1, (elems, b?), cs =>
    match b? with
    | some b =>
      match findTagGo matchEndAt 0 cs with
      | some (s, e, n, v) =>
        if n = b.num ∧ v = b.version then
          let contentBefore : List Char := cs.take s
          let b' := if contentBefore.isEmpty then b
                    else { b with lines := b.lines ++ [(⟨contentBefore⟩ : String)] }
          let elems' := if b'.selected then elems ++ [mkBlock b'] else elems
          processCharsF a fuel (elems', none) (cs.drop e)
        else
          (elems, some { b with lines := b.lines ++ [(⟨cs⟩ : String)] })
      | none => (elems, some { b with lines := b.lines ++ [(⟨cs⟩ : String)] })
    | none =>
      match findTagGo matchStartAt 0 cs with
      | some (s, e, n, v) =>
        let contentBefore : List Char := cs.take s
        let elems' := if contentBefore.isEmpty then elems
                      else elems ++ [LElem.raw_line ⟨contentBefore⟩]
        let selected := shouldRenderParagraphVersion n v a
        processCharsF a fuel (elems', some ⟨n, v, [], selected⟩) (cs.drop e)
      | none => (elems ++ [LElem.raw_line ⟨cs⟩], none)

/-- Process one raw line of the precedent. -/
def processLine (a : AppInputs) (st : List LElem × Option Builder)
    (line : String) : List LElem × Option Builder :=
  processCharsF a (line.toList.length + 1) st line.toList

/-- The line loop of `preprocess_precedent` before the end-of-input check. -/
def runCore (a : AppInputs) (lines : List String) :
    List LElem × Option Builder :=
  lines.foldl (processLine a) ([], none)

/-- The `st.warning` message for an unterminated block (source lines
140-142). -/
def warnText (b : Builder) : String :=
  "Unterminated paragraph block: [" ++ b.num ++
    (match b.version with | some v => "-" ++ v | none => "") ++
    "]. Content included if selected."

/-- The end-of-input handling of `preprocess_precedent` (source lines
139-148): flush an unterminated builder (only if selected and nonempty) and
surface a warning. -/
def finishParse : List LElem × Option Builder → List LElem × List String
  | (elems, none) => (elems, [])
  | (elems, some b) =>
    (if b.selected && !b.lines.isEmpty then elems ++ [mkBlock b] else elems,
     [warnText b])

/-- `preprocess_precedent(precedent_text, app_inputs)`: the returned
`logical_elements` together with the warnings surfaced to the operator. -/
def preprocessPrecedent (text : String) (a : AppInputs) :
    List LElem × List String :=
  finishParse (runCore a (pySplitlines text))

/-- The `track_tags` list of source line 480. -/
def trackTags : List String :=
  ["[all_sc]", "[all_ft]", "[all_int]", "[all_mt]", "[sc]", "[ft]", "[int]", "[mt]"]

/-- The `end_track_tags` list of source line 481. -/
def endTrackTags : List String :=
  ["[end all_sc]", "[end all_ft]", "[end all_int]", "[end all_mt]",
   "[end sc]", "[end ft]", "[end int]", "[end mt]"]

/-- Python `active_track_block[1:-1]`: the tag text between the brackets. -/
def trackInner (t : String) : String := (t.drop 1).dropRight 1

/-- The mutable flags of the module-level render loop (source lines
464-466). -/
structure RenderState where
  in_indiv_block : Bool
  in_corp_block : Bool
  active_track_block : Option String
deriving Repr, DecidableEq

/-- The track-block filter of source lines 498-509 (repeated at 516-527):
whether content inside `activeTag` renders under inputs `a`. -/
def trackContentRenders (activeTag : String) (a : AppInputs) : Bool :=
  (activeTag = "[all_sc]" && a.claim_assigned && a.selected_track = "Small Claims Track") ||
  (activeTag = "[all_ft]" && a.claim_assigned && a.selected_track = "Fast Track") ||
  (activeTag = "[all_int]" && a.claim_assigned && a.selected_track = "Intermediate Track") ||
  (activeTag = "[all_mt]" && a.claim_assigned && a.selected_track = "Multi Track") ||
  (activeTag = "[sc]" && !a.claim_assigned && a.selected_track = "Small Claims Track") ||
  (activeTag = "[ft]" && !a.claim_assigned && a.selected_track = "Fast Track") ||
  (activeTag = "[int]" && !a.claim_assigned && a.selected_track = "Intermediate Track") ||
  (activeTag = "[mt]" && !a.claim_assigned && a.selected_track = "Multi Track")

/-- The `raw_line` branch of the render loop (source lines 472-511): returns
the updated flags and the `lines_to_render_for_docx` contribution of this
element (empty when the line is a control tag or is filtered out). -/
def processRawLine (a : AppInputs) (st : RenderState) (content : String) :
    RenderState × List String :=
  let stripped := pyStrip content
  if stripped = "[indiv]" then ({ st with in_indiv_block := true }, [])
  else if stripped = "[end indiv]" then ({ st with in_indiv_block := false }, [])
  else if stripped = "[corp]" then ({ st with in_corp_block := true }, [])
  else if stripped = "[end corp]" then ({ st with in_corp_block := false }, [])
  else if trackTags.contains stripped then
    ({ st with active_track_block := some stripped }, [])
  else if endTrackTags.contains stripped then
    (match st.active_track_block with
     | some ab =>
       if stripped = "[end " ++ trackInner ab ++ "]" then
         { st with active_track_block := none }
       else st
     | none => st, [])
  else if st.in_indiv_block && !(a.client_type = "Individual") then (st, [])
  else if st.in_corp_block && !(a.client_type = "Corporate") then (st, [])
  else
    match st.active_track_block with
    | some ab => if trackContentRenders ab a then (st, [content]) else (st, [])
    | none => (st, [content])

/-- The numbered-block line pass of source lines 531-537: prepend
`"{n}. "` (display number, space) to the first line whose `strip()` is
nonempty; later lines are passed through unchanged. -/
def numberBlockCore (displayNum : String) : Bool → List String → List String
  | _, [] => []
  | hasAdded, l :: rest =>
    if !hasAdded && !(pyStrip l).isEmpty then
      (displayNum ++ " " ++ pyLstrip l) :: numberBlockCore displayNum true rest
    else
      l :: numberBlockCore displayNum hasAdded rest

/-- The `paragraph_block` numbering of the render loop (source lines
529-537): split the block content on newlines and number the first
non-blank line. -/
def numberBlockLines (displayNum : String) (content : String) : List String :=
  numberBlockCore displayNum false (pySplitNL content)

/-- The end tag that would close builder `b` (`[/num]` or `[/num-ver]`),
as a line appended at end of input. -/
def closerLine (b : Builder) : String :=
  ⟨'[' :: '/' :: (b.num.toList ++
      (match b.version with | some v => '-' :: v.toList | none => []) ++
      [']'])⟩

/-- A one-element builder used to witness the unterminated-block
behaviour. -/
def c6Builder : Builder := ⟨"1", none, ["x"], true⟩

/-- The three inline-formatting styles. -/
inductive FmtStyle where
  | bold
  | italic
  | underline
deriving DecidableEq, Fintype

/-- Opening delimiter of a style. -/
def openerTag : FmtStyle → String
  | .bold => "[bold]"
  | .italic => "[italics]"
  | .underline => "[underline]"

/-- Dedicated closing delimiter of a style. -/
def closerTag : FmtStyle → String
  | .bold => "[end bold]"
  | .italic => "[end italics]"
  | .underline => "[end underline]"

/-- Read one toggle out of the formatting state. -/
def getToggle (st : FmtState) : FmtStyle → Bool
  | .bold => st.is_bold
  | .italic => st.is_italic
  | .underline => st.is_underline

/-- Whether a part is a delimiter of the given style. -/
def styleTok (s : FmtStyle) (part : String) : Bool :=
  part = openerTag s || part = closerTag s

/-- Balanced formatting delimiters: no generic `[end]` closer appears, and
for each style the last delimiter of that style (if any) is its closer, so
every opened span is eventually closed. -/
def FmtBalanced (parts : List String) : Prop :=
  "[end]" ∉ parts ∧
    ∀ s : FmtStyle, (parts.filter (styleTok s)).getLast? ≠ some (openerTag s)

instance (parts : List String) : Decidable (FmtBalanced parts) := by
  unfold FmtBalanced; infer_instance

/-- The app context with an already-assigned Fast Track claim. -/
def inputsAssignedFast : AppInputs :=
  { defInputs with claim_assigned := true, selected_track := "Fast Track" }

/-- The app context of a corporate client. -/
def inputsCorp : AppInputs := { defInputs with client_type := "Corporate" }

/-- A context whose `our_ref` value contains the later-substituted
`your_ref` token. -/
def c7Inputs : AppInputs :=
  { defInputs with our_ref := some "{your_ref}", your_ref := some "GONE" }

/-- A context with token-free substitution values used to probe double
substitution. -/
def c8Inputs : AppInputs :=
  { defInputs with our_ref := some "X", name := some "" }

/-- The `{key}` tokens of the placeholder map's own key set. -/
def braceTokens (a : AppInputs) : List String :=
  ["{our_ref}", "{your_ref}", "{letter_date}", "{client_name_input}",
   "{client_address_line1}", "{client_address_line2_conditional}",
   "{client_postcode}", "{name}"] ++
  a.firm_details.map (fun kv => "\x7b" ++ kv.1 ++ "\x7d")

/-- The values substituted by `substitutePlaceholders` under context `a`. -/
def substValues (a : AppInputs) : List String :=
  [a.qu1_dispute_nature.getD "", a.qu2_initial_steps.getD "",
   a.qu3_timescales.getD "",
   "£" ++ a.qu4_initial_costs_estimate.getD "XX,XXX",
   a.our_ref.getD "", a.your_ref.getD "", a.letter_date.getD "",
   a.client_name_input.getD "", a.client_address_line1.getD "",
   a.client_address_line2_conditional.getD "", a.client_postcode.getD "",
   a.name.getD ""] ++
  a.firm_details.map (fun kv => kv.2)

/-- The spec's idempotence proviso: no substituted value contains a `{key}`
token of the map's own key set. -/
def valuesTokenFree (a : AppInputs) : Bool :=
  (substValues a).all fun v => (braceTokens a).all fun t => !occursS t v

/-! ## Helper lemmas -/

/-- Once the number has been attached, the remaining block lines pass
through unchanged. -/
theorem numberBlockCore_true (n : String) (ls : List String) :
    numberBlockCore n true ls = ls := by
  induction ls with
  | nil => rfl
  | cons l rest ih => simp [numberBlockCore, ih]

/-- A pattern that occurs in the right part of an append occurs in the
whole. -/
theorem occursL_append_of_right {p ys : List Char} (h : occursL p ys = true)
    (xs : List Char) : occursL p (xs ++ ys) = true := by
  induction xs with
  | nil => simpa
  | cons c rest ih => simp [occursL, ih]

/-- A prefix of `u` is a prefix of `u ++ w`. -/
theorem isPrefixOf_append_of {p u : List Char} (h : p.isPrefixOf u = true)
    (w : List Char) : p.isPrefixOf (u ++ w) = true := by
  rw [List.isPrefixOf_iff_prefix] at h ⊢
  exact h.trans (List.prefix_append u w)

/-- A pattern that occurs in the left part of an append occurs in the
whole. -/
theorem occursL_append_of_left {p xs : List Char} (h : occursL p xs = true)
    (ys : List Char) : occursL p (xs ++ ys) = true := by
  induction xs with
  | nil =>
    simp only [occursL, List.isPrefixOf_iff_prefix, List.prefix_nil] at h
    subst h
    cases ys <;> simp [occursL]
  | cons c rest ih =>
    simp only [occursL, Bool.or_eq_true] at h
    rcases h with h | h
    · have hap := isPrefixOf_append_of h ys
      simp only [List.cons_append] at hap
      simp [occursL, hap]
    · simp [occursL, ih h]

/-- A single replace pass over text not containing the pattern is the
identity. -/
theorem replaceGo_id_of_not_occurs {p : List Char} (v : List Char) :
    ∀ s, occursL p s = false → replaceGo p v 0 s = s := by
  intro s
  induction s with
  | nil => intro _; rfl
  | cons c rest ih =>
    intro h
    simp only [occursL, Bool.or_eq_false_iff] at h
    simp [replaceGo, h.1, ih h.2]

/-- `pyReplace` over text not containing the pattern is the identity. -/
theorem pyReplace_id_of_not_occurs {s p : String} (v : String)
    (h : occursS p s = false) : pyReplace s p v = s := by
  unfold pyReplace
  split
  · rfl
  · show (⟨replaceL p.toList v.toList s.toList⟩ : String) = s
    rw [replaceL, replaceGo_id_of_not_occurs _ _ h]
    rfl

/-- A single same-pattern replace pass whose value contains the pattern
leaves an occurrence of the pattern in its output: the inserted value is
not re-scanned. -/
theorem occursL_replaceGo_self {p v : List Char} (hv : occursL p v = true) :
    ∀ s, occursL p s = true → occursL p (replaceGo p v 0 s) = true := by
  intro s
  induction s with
  | nil => intro h; exact h
  | cons c rest ih =>
    intro h
    by_cases hp : p = []
    · subst hp
      cases hres : replaceGo [] v 0 (c :: rest) <;> simp [occursL]
    · by_cases hpre : p.isPrefixOf (c :: rest) = true
      · have hne : p.isEmpty = false := by
          cases p
          · exact absurd rfl hp
          · rfl
        simp only [replaceGo, hne, hpre, Bool.not_false, Bool.true_and, if_true]
        exact occursL_append_of_left hv _
      · have hpre' : p.isPrefixOf (c :: rest) = false := Bool.eq_false_iff.mpr hpre
        simp only [occursL, hpre', Bool.false_or] at h
        simp [replaceGo, hpre', occursL, ih h]


/-- The firm-details replacement fold is the identity on text containing
none of the firm `{key}` tokens. -/
theorem firmFold_id_of_not_occurs (fd : List (String × String)) (t : String)
    (h : ∀ kv ∈ fd, occursS ("\x7b" ++ kv.1 ++ "\x7d") t = false) :
    fd.foldl (fun acc kv => pyReplace acc ("\x7b" ++ kv.1 ++ "\x7d") kv.2) t = t := by
  induction fd with
  | nil => rfl
  | cons kv rest ih =>
    simp only [List.foldl_cons]
    rw [pyReplace_id_of_not_occurs _ (h kv (by simp))]
    exact ih fun kv2 hm => h kv2 (by simp [hm])

/-- Placeholder substitution is the identity on a fragment containing none
of its replacement patterns (so all other text, unknown `{...}` tokens
included, is left verbatim). -/
theorem substitutePlaceholders_id (text : String) (a : AppInputs)
    (h : ∀ p ∈ substPatterns a, occursS p text = false) :
    substitutePlaceholders text a = text := by
  have h1 := h qu1Pattern (by simp [substPatterns])
  have h2 := h qu2Pattern (by simp [substPatterns])
  have h3 := h qu3PatternA (by simp [substPatterns])
  have h4 := h qu3PatternB (by simp [substPatterns])
  have h5 := h qu4Pattern (by simp [substPatterns])
  have h6 := h "{our_ref}" (by simp [substPatterns])
  have h7 := h "{your_ref}" (by simp [substPatterns])
  have h8 := h "{letter_date}" (by simp [substPatterns])
  have h9 := h "{client_name_input}" (by simp [substPatterns])
  have h10 := h "{client_address_line1}" (by simp [substPatterns])
  have h11 := h "{client_address_line2_conditional}" (by simp [substPatterns])
  have h12 := h "{client_postcode}" (by simp [substPatterns])
  have h13 := h "{name}" (by simp [substPatterns])
  have hf : ∀ kv ∈ a.firm_details, occursS ("\x7b" ++ kv.1 ++ "\x7d") text = false :=
    fun kv hm => h _ (by
      simp only [substPatterns, List.mem_append]
      exact Or.inr (List.mem_map_of_mem _ hm))
  simp only [substitutePlaceholders]
  rw [pyReplace_id_of_not_occurs _ h1, pyReplace_id_of_not_occurs _ h2,
      pyReplace_id_of_not_occurs _ h3, pyReplace_id_of_not_occurs _ h4,
      pyReplace_id_of_not_occurs _ h5, pyReplace_id_of_not_occurs _ h6,
      pyReplace_id_of_not_occurs _ h7, pyReplace_id_of_not_occurs _ h8,
      pyReplace_id_of_not_occurs _ h9, pyReplace_id_of_not_occurs _ h10,
      pyReplace_id_of_not_occurs _ h11, pyReplace_id_of_not_occurs _ h12,
      pyReplace_id_of_not_occurs _ h13]
  exact firmFold_id_of_not_occurs _ _ hf

/-- C1: for every context whose selected track is one of the four track
names, exactly one of the 8 track-tag versions of paragraph 24 makes
`should_render_paragraph_version` return true (hence also at most one for
every such context, and exactly one for every (assignment-state, track)
pair). -/
theorem c1_track_versions_exactly_one (a : AppInputs)
    (h : a.selected_track ∈
      ["Small Claims Track", "Fast Track", "Intermediate Track", "Multi Track"]) :
    (["1", "2", "3", "4", "5", "6", "7", "8"].countP
        (fun v => shouldRenderParagraphVersion "24" (some v) a)) = 1 := by
  have hdep : ∀ v, shouldRenderParagraphVersion "24" (some v) a =
      shouldRenderParagraphVersion "24" (some v)
        { defInputs with claim_assigned := a.claim_assigned,
                         selected_track := a.selected_track } := fun _ => rfl
  simp only [hdep]
  simp only [List.mem_cons, List.not_mem_nil, or_false] at h
  rcases h with h | h | h | h <;> rw [h] <;>
    cases hca : a.claim_assigned <;> decide

/-- Witness for C1 at the assigned/Fast-Track context. -/
theorem c1_witness :
    (["1", "2", "3", "4", "5", "6", "7", "8"].countP
        (fun v => shouldRenderParagraphVersion "24" (some v) inputsAssignedFast)) = 1 :=
  c1_track_versions_exactly_one inputsAssignedFast (by decide)

/-- C2: for every client type in {Individual, Corporate} and both
client-type-conditioned paragraphs (6 and 18), exactly one of versions
`1`/`2` renders true and the other false — never both, never neither. -/
theorem c2_client_versions_exclusive (a : AppInputs) (pn : String)
    (hct : a.client_type = "Individual" ∨ a.client_type = "Corporate")
    (hpn : pn = "6" ∨ pn = "18") :
    ((shouldRenderParagraphVersion pn (some "1") a) &&
        (shouldRenderParagraphVersion pn (some "2") a)) = false ∧
    ((shouldRenderParagraphVersion pn (some "1") a) ||
        (shouldRenderParagraphVersion pn (some "2") a)) = true := by
  have e1 : "1".isEmpty = false := rfl
  have e2 : "2".isEmpty = false := rfl
  rcases hpn with rfl | rfl <;> rcases hct with h | h <;>
    simp [shouldRenderParagraphVersion, h, e1, e2]

/-- Witness for C2 at a corporate client and paragraph 18. -/
theorem c2_witness :
    ((shouldRenderParagraphVersion "18" (some "1") inputsCorp) &&
        (shouldRenderParagraphVersion "18" (some "2") inputsCorp)) = false ∧
    ((shouldRenderParagraphVersion "18" (some "1") inputsCorp) ||
        (shouldRenderParagraphVersion "18" (some "2") inputsCorp)) = true :=
  c2_client_versions_exclusive inputsCorp "18" (by decide) (by decide)

/-- C3 counterexample: the claim says any block tag with a paragraph number
other than 6, 18, 24 evaluates false for every context, but version 1 of
paragraph 5 evaluates true. -/
theorem c3_counterexample :
    shouldRenderParagraphVersion "5" (some "1") defInputs = true := by decide

/-- C3 (amended): the evaluator fails closed only for unknown versions of
paragraph 24; a versioned tag with any paragraph number other than 6, 18,
24 always evaluates true; an unknown (nonempty, non-`1`) version of
paragraphs 6/18 renders as the corporate version. -/
theorem c3_amended :
    (∀ (a : AppInputs) (v : String),
        v ∉ ["1", "2", "3", "4", "5", "6", "7", "8"] → v ≠ "" →
        shouldRenderParagraphVersion "24" (some v) a = false) ∧
    (∀ (a : AppInputs) (n v : String),
        n ≠ "6" → n ≠ "18" → n ≠ "24" →
        shouldRenderParagraphVersion n (some v) a = true) ∧
    (∀ (a : AppInputs) (n v : String), (n = "6" ∨ n = "18") →
        v ≠ "" → v ≠ "1" →
        shouldRenderParagraphVersion n (some v) a =
          decide (a.client_type = "Corporate")) := by
  refine ⟨?_, ?_, ?_⟩
  · intro a v hmem hne
    simp only [List.mem_cons, List.not_mem_nil, or_false] at hmem
    push_neg at hmem
    obtain ⟨h1, h2, h3, h4, h5, h6, h7, h8⟩ := hmem
    have hE : v.isEmpty = false := by
      cases hIsE : v.isEmpty
      · rfl
      · exact absurd ((String.isEmpty_iff v).mp hIsE) hne
    simp [shouldRenderParagraphVersion, hE, h1, h2, h3, h4, h5, h6, h7, h8]
  · intro a n v h6 h18 h24
    simp [shouldRenderParagraphVersion, h6, h18, h24]
  · intro a n v hpn hne h1
    have hE : v.isEmpty = false := by
      cases hIsE : v.isEmpty
      · rfl
      · exact absurd ((String.isEmpty_iff v).mp hIsE) hne
    rcases hpn with rfl | rfl <;>
      simp [shouldRenderParagraphVersion, hE, h1]

/-- Witness for C3 (amended) at paragraph 24 version 9, paragraph 5
version 1, and paragraph 6 version 2 with a corporate client. -/
theorem c3_amended_witness :
    shouldRenderParagraphVersion "24" (some "9") defInputs = false ∧
    shouldRenderParagraphVersion "5" (some "2") defInputs = true ∧
    shouldRenderParagraphVersion "6" (some "2") inputsCorp =
      decide (inputsCorp.client_type = "Corporate") :=
  ⟨c3_amended.1 defInputs "9" (by decide) (by decide),
   c3_amended.2.1 defInputs "5" "2" (by decide) (by decide) (by decide),
   c3_amended.2.2 inputsCorp "6" "2" (Or.inl rfl) (by decide) (by decide)⟩

/-- C9 counterexample: the first non-blank line of a rendered numbered
block is prefixed with the display number and a space, not a tab: the claim's
required `"{n}.\t"` prefix does not occur. -/
theorem c9_counterexample :
    numberBlockLines "3." "Hello world" = ["3. Hello world"] ∧
    "3.\t".toList.isPrefixOf "3. Hello world".toList = false := by
  exact ⟨by decide, by decide⟩

/-- C9 (amended): the first line of a numbered block whose `strip()` is
non-blank is emitted with the prefix `"{n}. "` — display number, full
stop, then a single space — prepended to the `lstrip()`-ed line; the
remaining lines pass through unchanged (the code sets no tab separator). -/
theorem c9_amended (n l : String) (rest : List String)
    (h : (pyStrip l).isEmpty = false) :
    numberBlockCore n false (l :: rest) = (n ++ " " ++ pyLstrip l) :: rest := by
  simp [numberBlockCore, h, numberBlockCore_true]

/-- Witness for C9 (amended) on a two-line block. -/
theorem c9_amended_witness :
    numberBlockCore "24." false ["  first", "second"] =
      ("24." ++ " " ++ pyLstrip "  first") :: ["second"] :=
  c9_amended "24." "  first" ["second"] (by decide)

/-- C10: an end-track tag line is consumed without output; it resets the
active track block to none exactly when it matches the active block, and
otherwise (including when no track block is active) leaves all render-loop
state unchanged. -/
theorem c10_end_track_tags (a : AppInputs) (st : RenderState)
    (content tag : String) (htag : tag ∈ endTrackTags)
    (hstrip : pyStrip content = tag) :
    processRawLine a st content =
      ({ st with active_track_block :=
          match st.active_track_block with
          | some ab =>
            if tag = "[end " ++ trackInner ab ++ "]" then none else some ab
          | none => none }, []) := by
  obtain ⟨ii, ic, ab⟩ := st
  fin_cases htag <;>
    · simp only [processRawLine, hstrip]
      cases ab <;> simp [trackTags, endTrackTags] <;> try (split <;> rfl)

/-- Witness for C10: `[end ft]` while the active block is `[sc]` is
consumed and changes nothing. -/
theorem c10_witness :
    processRawLine defInputs ⟨false, false, some "[sc]"⟩ " [end ft] " =
      (⟨false, false, match (some "[sc]" : Option String) with
          | some ab =>
            if "[end ft]" = "[end " ++ trackInner ab ++ "]" then none
            else some ab
          | none => none⟩, []) :=
  c10_end_track_tags defInputs ⟨false, false, some "[sc]"⟩ " [end ft] "
    "[end ft]" (by decide) (by decide)

/-- C4 counterexample: with `your_ref` absent from the map, the fragment
`"Your Ref: {your_ref}"` renders as `"Your Ref: "` — the token is replaced
by a blank, not left verbatim as the claim requires. -/
theorem c4_counterexample :
    substitutePlaceholders "Your Ref: {your_ref}" defInputs = "Your Ref: " ∧
    occursS "{your_ref}" (substitutePlaceholders "Your Ref: {your_ref}" defInputs) = false :=
  ⟨by decide, by decide⟩

/-- C4 (amended): an absent key never crashes substitution; a key of the
hard-coded replacement set (such as `your_ref`) has its token replaced by
the empty string (a blank), while a fragment containing none of the
handled replacement patterns is left completely untouched, so only tokens
outside the handled set stay verbatim. -/
theorem c4_amended :
    substitutePlaceholders "Your Ref: {your_ref}" defInputs = "Your Ref: " ∧
    (∀ (text : String) (a : AppInputs),
        (∀ p ∈ substPatterns a, occursS p text = false) →
        substitutePlaceholders text a = text) :=
  ⟨by decide, substitutePlaceholders_id⟩

/-- Witness for C4 (amended): an unknown token in a fragment free of all
handled patterns survives substitution verbatim. -/
theorem c4_witness :
    substitutePlaceholders "Unknown {mystery_token} stays" defInputs =
      "Unknown {mystery_token} stays" :=
  c4_amended.2 "Unknown {mystery_token} stays" defInputs (by decide)

/-- C7 counterexample: with `our_ref ↦ "{your_ref}"` and
`your_ref ↦ "GONE"`, the fragment `"Ref: {our_ref}"` renders as
`"Ref: GONE"`: the later key's token inside the earlier-substituted value
was re-scanned and replaced, contradicting the claim. -/
theorem c7_counterexample :
    substitutePlaceholders "Ref: {our_ref}" c7Inputs = "Ref: GONE" ∧
    occursS "{your_ref}" (substitutePlaceholders "Ref: {our_ref}" c7Inputs) = false :=
  ⟨by decide, by decide⟩

/-- C7 (amended): each per-key replacement is a single left-to-right pass
that never re-scans the value it inserts for that same key (an occurrence
of the key's own token inside the substituted value survives to the
output), but the per-key passes run in sequence over the whole text, so a
later key's token occurring inside an earlier-substituted value is
replaced by the later pass. -/
theorem c7_amended :
    (∀ s : List Char, occursL "{your_ref}".toList s = true →
        occursL "{your_ref}".toList
          (replaceL "{your_ref}".toList "A{your_ref}B".toList s) = true) ∧
    substitutePlaceholders "{our_ref}" c7Inputs = "GONE" := by
  constructor
  · intro s hs
    exact occursL_replaceGo_self (by decide) s hs
  · decide

/-- Witness for C7 (amended): the same-key token inserted by a replacement
survives that replacement pass. -/
theorem c7_witness :
    occursL "{your_ref}".toList
      (replaceL "{your_ref}".toList "A{your_ref}B".toList
        "x{your_ref}y".toList) = true :=
  c7_amended.1 "x{your_ref}y".toList (by decide)

/-- C8 counterexample: the map `c8Inputs` satisfies the claim's proviso (no
substituted value contains a `{key}` token of the map's key set), yet on
`"{our{name}_ref}"` one application yields `"{our_ref}"` (token spliced
together by the empty `name` value) and a second application changes it
again — substitution is not idempotent under the claimed proviso. -/
theorem c8_counterexample :
    valuesTokenFree c8Inputs = true ∧
    substitutePlaceholders "{our{name}_ref}" c8Inputs = "{our_ref}" ∧
    substitutePlaceholders (substitutePlaceholders "{our{name}_ref}" c8Inputs)
        c8Inputs ≠ substitutePlaceholders "{our{name}_ref}" c8Inputs :=
  ⟨by decide, by decide, by decide⟩

/-- C8 (amended): substitution is idempotent whenever the once-substituted
text contains none of the map's replacement patterns (token-free values
alone are not enough, because removing an inner token can splice an outer
token together). -/
theorem c8_amended (text : String) (a : AppInputs)
    (h : ∀ p ∈ substPatterns a, occursS p (substitutePlaceholders text a) = false) :
    substitutePlaceholders (substitutePlaceholders text a) a =
      substitutePlaceholders text a :=
  substitutePlaceholders_id _ a h

/-- Witness for C8 (amended) on a token-free fragment. -/
theorem c8_witness :
    substitutePlaceholders (substitutePlaceholders "Hello world" defInputs)
        defInputs = substitutePlaceholders "Hello world" defInputs :=
  c8_amended "Hello world" defInputs (by decide)

/-- A formatting-state step on a part that is not a delimiter of style `s`
(and not the generic `[end]`) leaves the `s` toggle unchanged. -/
theorem getToggle_fmtStep_of_not_styleTok (st : FmtState) (p : String)
    (s : FmtStyle) (hend : p ≠ "[end]") (hrel : styleTok s p = false) :
    getToggle (fmtStep st p) s = getToggle st s := by
  cases s <;>
    · simp only [styleTok, openerTag, closerTag, Bool.or_eq_false_iff,
        decide_eq_false_iff_not] at hrel
      obtain ⟨ho, hc⟩ := hrel
      simp only [fmtStep, getToggle, ho, hc, hend]
      split_ifs <;> simp_all [getToggle]

/-- A formatting-state step on a delimiter of style `s` sets the `s` toggle
to whether the delimiter is the opener. -/
theorem getToggle_fmtStep_of_styleTok (st : FmtState) (p : String)
    (s : FmtStyle) (hrel : styleTok s p = true) :
    getToggle (fmtStep st p) s = decide (p = openerTag s) := by
  cases s <;>
    · simp only [styleTok, openerTag, closerTag, Bool.or_eq_true,
        decide_eq_true_eq] at hrel
      rcases hrel with rfl | rfl <;> rfl

/-- In the absence of the generic `[end]` delimiter, the final value of one
toggle is decided by the last delimiter of its style (or by the initial
state when the style never occurs). -/
theorem getToggle_foldl_fmtStep (s : FmtStyle) :
    ∀ (parts : List String) (st : FmtState), "[end]" ∉ parts →
      getToggle (List.foldl fmtStep st parts) s =
        (match (parts.filter (styleTok s)).getLast? with
         | some t => decide (t = openerTag s)
         | none => getToggle st s) := by
  intro parts
  induction parts with
  | nil => intro st _; rfl
  | cons p rest ih =>
    intro st hnm
    have hp : p ≠ "[end]" := fun hh => hnm (by simp [hh])
    have hrest : "[end]" ∉ rest := fun hh => hnm (by simp [hh])
    simp only [List.foldl_cons]
    rw [ih _ hrest]
    cases hrel : styleTok s p
    · have hfilter : (p :: rest).filter (styleTok s) = rest.filter (styleTok s) := by
        simp [List.filter_cons, hrel]
      rw [hfilter]
      cases hlast : (rest.filter (styleTok s)).getLast? with
      | some t => simp [hlast]
      | none =>
        simp only [hlast]
        exact getToggle_fmtStep_of_not_styleTok st p s hp hrel
    · have hfilter : (p :: rest).filter (styleTok s) = p :: rest.filter (styleTok s) := by
        simp [List.filter_cons, hrel]
      rw [hfilter]
      cases hfr : rest.filter (styleTok s) with
      | nil =>
        simp only [hfr, List.getLast?_singleton]
        exact getToggle_fmtStep_of_styleTok st p s hrel
      | cons q qs =>
        simp only [hfr, List.getLast?_cons_cons]
        cases hl : (q :: qs).getLast? with
        | none => exact absurd (List.getLast?_eq_none_iff.mp hl) (by simp)
        | some t => simp [hl]

/-- C5: for every input text whose formatting delimiters are balanced (no
generic `[end]` part, and for each style the last delimiter of that style,
if any, is its closer), the tokenizer leaves every style toggle off at the
end of the fragment; and on `"[bold]Hello[end bold] World"` it emits
exactly the two runs `("Hello", bold)` and `(" World", plain)`. -/
theorem c5_formatting_balance :
    (∀ text : String, FmtBalanced (splitFmt text) →
        List.foldl fmtStep fmtInit (splitFmt text) = fmtInit) ∧
    inlineRuns "[bold]Hello[end bold] World" =
      [⟨"Hello", true, false, false⟩, ⟨" World", false, false, false⟩] := by
  constructor
  · intro text hbal
    obtain ⟨hend, hlast⟩ := hbal
    have key : ∀ s : FmtStyle,
        getToggle (List.foldl fmtStep fmtInit (splitFmt text)) s = false := by
      intro s
      rw [getToggle_foldl_fmtStep s _ _ hend]
      cases hl : ((splitFmt text).filter (styleTok s)).getLast? with
      | none => cases s <;> rfl
      | some t =>
        have ht : t ∈ (splitFmt text).filter (styleTok s) :=
          List.mem_of_getLast?_eq_some hl
        have hs : styleTok s t = true := (List.mem_filter.mp ht).2
        have hneq : t ≠ openerTag s := fun hh => hlast s (by rw [hl, hh])
        simp only [styleTok, Bool.or_eq_true, decide_eq_true_eq] at hs
        rcases hs with rfl | rfl
        · exact absurd rfl hneq
        · simp only [decide_eq_false_iff_not]
          cases s <;> decide
    exact FmtState.ext (key FmtStyle.bold) (key FmtStyle.italic)
      (key FmtStyle.underline)
  · decide

/-- Witness for C5 on the spec's own example input. -/
theorem c5_witness :
    FmtBalanced (splitFmt "[bold]Hello[end bold] World") ∧
    List.foldl fmtStep fmtInit (splitFmt "[bold]Hello[end bold] World") =
      fmtInit :=
  ⟨by decide, c5_formatting_balance.1 "[bold]Hello[end bold] World" (by decide)⟩

/-- `spanDigits` consumes exactly a leading all-digit run when the
remainder starts with a non-digit. -/
theorem spanDigits_append (r : List Char)
    (hr : ∀ c ∈ r.head?, c.isDigit = false) :
    ∀ ds, (∀ c ∈ ds, c.isDigit = true) → spanDigits (ds ++ r) = (ds, r) := by
  intro ds
  induction ds with
  | nil =>
    intro _
    cases r with
    | nil => rfl
    | cons c r' => simp [spanDigits, hr c (by simp)]
  | cons d ds' ih =>
    intro hds
    have hd : d.isDigit = true := hds d (by simp)
    simp [spanDigits, hd, ih (fun c hc => hds c (by simp [hc]))]

/-- The start-tag matcher on a versionless tag `[num]` followed by
anything. -/
theorem matchStartAt_tag_none (nd : List Char) (hne : nd ≠ [])
    (hds : ∀ c ∈ nd, c.isDigit = true) (rest : List Char) :
    matchStartAt ('[' :: (nd ++ ']' :: rest)) =
      some (nd.length + 2, ⟨nd⟩, none) := by
  have hE : nd.isEmpty = false := by cases nd with
    | nil => exact absurd rfl hne
    | cons _ _ => rfl
  simp [matchStartAt, spanDigits_append (']' :: rest) (by simp) nd hds, hE]

/-- The start-tag matcher on a versioned tag `[num-ver]` followed by
anything. -/
theorem matchStartAt_tag_some (nd vs : List Char) (hne : nd ≠ [])
    (hds : ∀ c ∈ nd, c.isDigit = true) (hvne : vs ≠ [])
    (hvds : ∀ c ∈ vs, c.isDigit = true) (rest : List Char) :
    matchStartAt ('[' :: (nd ++ '-' :: (vs ++ ']' :: rest))) =
      some (nd.length + vs.length + 3, ⟨nd⟩, some ⟨vs⟩) := by
  have hE : nd.isEmpty = false := by cases nd with
    | nil => exact absurd rfl hne
    | cons _ _ => rfl
  have hvE : vs.isEmpty = false := by cases vs with
    | nil => exact absurd rfl hvne
    | cons _ _ => rfl
  have hspan1 : spanDigits (nd ++ '-' :: (vs ++ ']' :: rest)) =
      (nd, '-' :: (vs ++ ']' :: rest)) :=
    spanDigits_append ('-' :: (vs ++ ']' :: rest))
      (by intro c hc; simp at hc; subst hc; decide) nd hds
  have hspan2 : spanDigits (vs ++ ']' :: rest) = (vs, ']' :: rest) :=
    spanDigits_append (']' :: rest)
      (by intro c hc; simp at hc; subst hc; decide) vs hvds
  simp [matchStartAt, hspan1, hspan2, hE, hvE]

/-- `findTagGo` returns the head match immediately. -/
theorem findTagGo_head {matcher : List Char → Option (Nat × String × Option String)}
    {cs : List Char} {len : Nat} {n : String} {v : Option String}
    (h : matcher cs = some (len, n, v)) (i : Nat) :
    findTagGo matcher i cs = some (i, i + len, n, v) := by
  cases cs <;> simp [findTagGo, h]

/-- One inner-loop step on an open builder whose line is exactly a
matching end tag: the block is emitted exactly when selected and the
builder is cleared. -/
theorem processCharsF_close_step (a : AppInputs) (elems : List LElem)
    (b : Builder) (c : Char) (cs' : List Char) (fuel : Nat)
    (hfind : findTagGo matchEndAt 0 (c :: cs') =
      some (0, (c :: cs').length, b.num, b.version)) :
    processCharsF a (fuel + 1) (elems, some b) (c :: cs') =
      ((if b.selected then elems ++ [mkBlock b] else elems), none) := by
  simp [processCharsF, hfind, List.drop_length]

/-- Processing the matching end-tag line while a builder is open closes the
builder: the block is emitted exactly when selected, with the accumulated
content, and the builder is cleared. -/
theorem processLine_closer (a : AppInputs) (elems : List LElem) (b : Builder)
    (hne : b.num.toList ≠ []) (hds : ∀ c ∈ b.num.toList, c.isDigit = true)
    (hver : ∀ vs ∈ b.version, vs.toList ≠ [] ∧ ∀ c ∈ vs.toList, c.isDigit = true) :
    processLine a (elems, some b) (closerLine b) =
      ((if b.selected then elems ++ [mkBlock b] else elems), none) := by
  cases hv : b.version with
  | none =>
    have hcs : (closerLine b).toList = '[' :: '/' :: (b.num.toList ++ ']' :: []) := by
      simp [closerLine, hv]
    have hmatch : matchEndAt ('[' :: '/' :: (b.num.toList ++ ']' :: [])) =
        some (('[' :: '/' :: (b.num.toList ++ ']' :: [])).length, b.num, b.version) := by
      have hst := matchStartAt_tag_none b.num.toList hne hds []
      simp only [matchEndAt, hst]
      have hstr : (⟨b.num.toList⟩ : String) = b.num := rfl
      rw [hstr, hv]
      congr 2
      simp
    have hfind := findTagGo_head hmatch 0
    simp only [Nat.zero_add] at hfind
    unfold processLine
    rw [hcs]
    exact processCharsF_close_step a elems b _ _ _ hfind
  | some vstr =>
    obtain ⟨hvne, hvds⟩ := hver vstr (by simp [hv])
    have hcs : (closerLine b).toList =
        '[' :: '/' :: (b.num.toList ++ '-' :: (vstr.toList ++ ']' :: [])) := by
      simp [closerLine, hv]
    have hmatch : matchEndAt
        ('[' :: '/' :: (b.num.toList ++ '-' :: (vstr.toList ++ ']' :: []))) =
        some (('[' :: '/' :: (b.num.toList ++ '-' :: (vstr.toList ++ ']' :: []))).length,
          b.num, b.version) := by
      have hst := matchStartAt_tag_some b.num.toList vstr.toList hne hds hvne hvds []
      simp only [matchEndAt, hst]
      have hstr : (⟨b.num.toList⟩ : String) = b.num := rfl
      have hstr2 : (⟨vstr.toList⟩ : String) = vstr := rfl
      rw [hstr, hstr2, hv]
      congr 2
      simp
      omega
    have hfind := findTagGo_head hmatch 0
    simp only [Nat.zero_add] at hfind
    unfold processLine
    rw [hcs]
    exact processCharsF_close_step a elems b _ _ _ hfind

/-- C6 counterexample: for the input `"[1]"` (a selected start tag with no
matching end tag and no accumulated content) the parser emits no element,
while the same input explicitly closed at end of input (`"[1]\n[/1]"`)
emits an empty paragraph block — so the unterminated block's content is
not included "exactly as if the block had been closed at end of input". -/
theorem c6_counterexample :
    (runCore defInputs (pySplitlines "[1]")).2 = some ⟨"1", none, [], true⟩ ∧
    (preprocessPrecedent "[1]" defInputs).2 ≠ [] ∧
    (preprocessPrecedent "[1]" defInputs).1 = [] ∧
    (preprocessPrecedent "[1]\n[/1]" defInputs).1 =
      [LElem.paragraph_block "1." ""] ∧
    (preprocessPrecedent "[1]" defInputs).1 ≠
      (preprocessPrecedent "[1]\n[/1]" defInputs).1 :=
  ⟨by decide, by decide, by decide, by decide, by decide⟩

/-- C6 (amended): the parser is total; when input ends inside a block a
single operator warning is surfaced, and the unterminated block's
accumulated content is emitted as a paragraph block exactly when the block
is selected and has at least one accumulated line.  Processing the block's
own end tag as one further line would instead emit the block whenever
selected; the two agree whenever at least one content line was accumulated
— a selected unterminated block with no accumulated content is dropped,
whereas an explicitly closed empty block yields an empty block element. -/
theorem c6_amended (text : String) (a : AppInputs) (b : Builder)
    (hb : (runCore a (pySplitlines text)).2 = some b)
    (hnum : b.num.toList ≠ [] ∧ ∀ c ∈ b.num.toList, c.isDigit = true)
    (hver : ∀ vs ∈ b.version, vs.toList ≠ [] ∧ ∀ c ∈ vs.toList, c.isDigit = true) :
    (preprocessPrecedent text a).2 = [warnText b] ∧
    (preprocessPrecedent text a).1 =
      (runCore a (pySplitlines text)).1 ++
        (if b.selected && !b.lines.isEmpty then [mkBlock b] else []) ∧
    processLine a (runCore a (pySplitlines text)) (closerLine b) =
      ((runCore a (pySplitlines text)).1 ++
        (if b.selected then [mkBlock b] else []), none) ∧
    (b.lines ≠ [] →
      (preprocessPrecedent text a).1 =
        (processLine a (runCore a (pySplitlines text)) (closerLine b)).1) := by
  have hpair : runCore a (pySplitlines text) =
      ((runCore a (pySplitlines text)).1, some b) := by
    rw [← hb]
  have h1 : (preprocessPrecedent text a).2 = [warnText b] := by
    rw [preprocessPrecedent, hpair]
    rfl
  have h2 : (preprocessPrecedent text a).1 =
      (runCore a (pySplitlines text)).1 ++
        (if b.selected && !b.lines.isEmpty then [mkBlock b] else []) := by
    rw [preprocessPrecedent, hpair]
    cases hsel : b.selected && !b.lines.isEmpty <;> simp [finishParse, hsel]
  have h3 : processLine a (runCore a (pySplitlines text)) (closerLine b) =
      ((runCore a (pySplitlines text)).1 ++
        (if b.selected then [mkBlock b] else []), none) := by
    rw [hpair, processLine_closer a _ b hnum.1 hnum.2 hver]
    cases hsel : b.selected <;> simp [hsel]
  refine ⟨h1, h2, h3, fun hl => ?_⟩
  have hE : b.lines.isEmpty = false := by
    cases hll : b.lines with
    | nil => exact absurd hll hl
    | cons _ _ => rfl
  rw [h2, h3]
  simp [hE]

/-- Witness for C6 (amended) on the input `"[1]x"`, which ends inside the
selected block `[1]` with one accumulated content line. -/
theorem c6_witness :
    (preprocessPrecedent "[1]x" defInputs).2 = [warnText c6Builder] ∧
    (preprocessPrecedent "[1]x" defInputs).1 =
      (runCore defInputs (pySplitlines "[1]x")).1 ++
        (if c6Builder.selected && !c6Builder.lines.isEmpty
         then [mkBlock c6Builder] else []) ∧
    processLine defInputs (runCore defInputs (pySplitlines "[1]x"))
        (closerLine c6Builder) =
      ((runCore defInputs (pySplitlines "[1]x")).1 ++
        (if c6Builder.selected then [mkBlock c6Builder] else []), none) ∧
    (c6Builder.lines ≠ [] →
      (preprocessPrecedent "[1]x" defInputs).1 =
        (processLine defInputs (runCore defInputs (pySplitlines "[1]x"))
          (closerLine c6Builder)).1) :=
  c6_amended "[1]x" defInputs c6Builder (by decide) (by decide)
    (by intro vs hvs; simp [c6Builder] at hvs)

end StreamlitApp
